import Mathlib

/-!
Verification of the teaching repository `esilv-mlops-crashcourse-24`.

The development shallowly embeds the small Python sources:

* `lessons/02-model-deployment/web_service/lib/preprocessing.py`
  (`CATEGORICAL_COLS`, `encode_categorical_cols` over a pandas DataFrame),
* `lessons/02-model-deployment/web_service/lib/models.py` (`InputData`),
* `lessons/02-model-deployment/web_service/app_config.py` (`CATEGORICAL_VARS`),
* `lessons/03-pipeline-and-orchestration/lib/config.py` (`CATEGORICAL_COLS`),
* `lessons/02-model-deployment/fast_api_tutorial/main.py` (`greet_user`),
* `lessons/00-intro/best-practices/lib/hello_world.py`
  (`sum_two_numbers`, `call_people`).

A pandas DataFrame is modelled as an ordered association list of named
columns, each a list of cells; a cell is a null (NaN), an integer, a
float (modelled as a rational) or a string.  Fallible pandas operations
(raising KeyError / ValueError) return `Option`.
-/

/-- A cell of a pandas DataFrame: NaN, an integer, a float (modelled as a
rational number) or a string. -/
inductive Cell where
  | null : Cell
  | int : Int → Cell
  | float : Rat → Cell
  | str : String → Cell
deriving DecidableEq, Repr

/-- A pandas DataFrame: an ordered list of named columns. -/
structure DataFrame where
  cols : List (String × List Cell)
deriving DecidableEq, Repr

/-- Column selection `df[name]`: the first column with that name, or
none (pandas raises a KeyError) when absent. -/
def DataFrame.getCol (df : DataFrame) (name : String) : Option (List Cell) :=
  df.cols.lookup name

/-- Column assignment `df[name] = new`: overwrite every column entry with
that name, leaving all other columns (and the column order) unchanged. -/
def DataFrame.setCol (df : DataFrame) (name : String) (new : List Cell) : DataFrame :=
  ⟨df.cols.map (fun p => if p.1 = name then (name, new) else p)⟩

/-- The column names of the frame, in order. -/
def DataFrame.names (df : DataFrame) : List String :=
  df.cols.map Prod.fst

/-- No two columns of the frame share a name (the well-formedness pandas
frames have in every use in this repository). -/
def DataFrame.NodupNames (df : DataFrame) : Prop :=
  df.names.Nodup

/-! ### Decimal integer printing and parsing

`astype("int")` on a string column parses each string with Python
integer-literal semantics (an optional sign followed by decimal digits,
raising ValueError otherwise); `astype("str")` on an integer column
produces Python `str(int)`, the plain decimal representation with a
leading minus sign for negative values.  Both directions are embedded
below with fuel-based structural recursion so that concrete instances
reduce inside the kernel. -/

/-- Little-endian decimal digits of `n`; the first argument is fuel,
sufficient whenever `n ≤ fuel`. -/
def natDigitsRevAux : Nat → Nat → List Nat
  | 0, _ => []
  | _ + 1, 0 => []
  | fuel + 1, n + 1 => ((n + 1) % 10) :: natDigitsRevAux fuel ((n + 1) / 10)

/-- Little-endian decimal digits of `n` (empty for `n = 0`). -/
def natDigitsRev (n : Nat) : List Nat :=
  natDigitsRevAux n n

/-- The characters of Python `str(n)` for a natural `n`. -/
def natDecimalChars (n : Nat) : List Char :=
  if n = 0 then ['0'] else ((natDigitsRev n).map Nat.digitChar).reverse

/-- The characters of Python `str(k)` for an integer `k`. -/
def intDecimalChars (k : Int) : List Char :=
  if k < 0 then '-' :: natDecimalChars k.natAbs else natDecimalChars k.natAbs

/-- Python `str(k)` for an integer `k`: its decimal representation. -/
def intToDecimalString (k : Int) : String :=
  ⟨intDecimalChars k⟩

/-- Parse a nonempty all-digit character list as a natural number
(accumulating left to right, as Python `int` does). -/
def parseNatChars (l : List Char) : Option Nat :=
  if l ≠ [] ∧ l.all Char.isDigit then
    some (l.foldl (fun n c => n * 10 + (c.toNat - 48)) 0)
  else
    none

/-- Python `int(s)` on a trimmed string: an optional sign followed by
decimal digits; anything else raises ValueError (`none`). -/
def parseIntChars (l : List Char) : Option Int :=
  match l with
  | [] => none
  | c :: rest =>
    if c = '-' then (parseNatChars rest).map (fun n => -(n : Int))
    else if c = '+' then (parseNatChars rest).map (fun n => (n : Int))
    else (parseNatChars (c :: rest)).map (fun n => (n : Int))

/-! ### The categorical encoder
(`web_service/lib/preprocessing.py`) -/

/-- `CATEGORICAL_COLS` of `web_service/lib/preprocessing.py`. -/
def CATEGORICAL_COLS : List String :=
  ["PULocationID", "DOLocationID", "passenger_count"]

/-- `fillna(-1)` on one cell: a NaN becomes the integer -1, everything
else is unchanged. -/
def fillnaCell : Cell → Cell
  | .null => .int (-1)
  | c => c

/-- The C-style cast of a float to an integer truncates toward zero. -/
def ratTruncTowardZero (q : Rat) : Int :=
  Int.tdiv q.num (q.den : Int)

/-- `astype("int")` on one cell: integers are kept, floats are truncated
toward zero, strings are parsed as Python integer literals (ValueError,
i.e. `none`, otherwise); a NaN cannot be cast (pandas raises). -/
def astypeIntCell : Cell → Option Cell
  | .null => none
  | .int n => some (.int n)
  | .float q => some (.int (ratTruncTowardZero q))
  | .str s => (parseIntChars s.data).map Cell.int

/-- `astype("str")` on one cell.  In `encode_categorical_cols` this is
only ever applied right after `astype("int")`, so only the `.int` branch
is reachable there; the other branches are total stand-ins (pandas would
produce `"nan"` for NaN and some float rendering, which no claim and no
reachable code path depends on). -/
def astypeStrCell : Cell → Cell
  | .null => .str "nan"
  | .int n => .str (intToDecimalString n)
  | .float q => .str (intToDecimalString q.num)
  | .str s => .str s

/-- Apply a fallible cellwise cast to a whole column, failing (pandas
raises) as soon as one cell fails. -/
def mapCellsM (g : Cell → Option Cell) : List Cell → Option (List Cell)
  | [] => some []
  | c :: rest => do
    let c2 ← g c
    let rest2 ← mapCellsM g rest
    pure (c2 :: rest2)

/-- `df[cols].fillna(-1).astype("int")` on one column. -/
def encodeColInt (col : List Cell) : Option (List Cell) :=
  mapCellsM astypeIntCell (col.map fillnaCell)

/-- `df[cols] = f(df[cols])` for a columnwise `f`: look every named
column up (KeyError, i.e. `none`, when absent), transform it, write it
back. -/
def setColsMapped (df : DataFrame) (names : List String)
    (f : List Cell → Option (List Cell)) : Option DataFrame :=
  match names with
  | [] => some df
  | name :: rest => do
    let col ← df.getCol name
    let col2 ← f col
    setColsMapped (df.setCol name col2) rest f

/-- `encode_categorical_cols(df, categorical_cols=None)` of
`web_service/lib/preprocessing.py`:

    if categorical_cols is None:
        categorical_cols = CATEGORICAL_COLS
    df[categorical_cols] = df[categorical_cols].fillna(-1).astype("int")
    df[categorical_cols] = df[categorical_cols].astype("str")
    return df

The two frame assignments are embedded column by column; a raising
pandas call makes the whole application `none`. -/
def encode_categorical_cols (df : DataFrame)
    (categorical_cols : Option (List String) := none) : Option DataFrame := do
  let cols := categorical_cols.getD CATEGORICAL_COLS
  let df1 ← setColsMapped df cols encodeColInt
  let df2 ← setColsMapped df1 cols (fun col => some (col.map astypeStrCell))
  pure df2

/-! ### Request/response models
(`web_service/lib/models.py`) -/

/-- `InputData` of `web_service/lib/models.py`: a pydantic record with
three integer fields, each with a sample default. -/
structure InputData where
  PULocationID : Int := 264
  DOLocationID : Int := 264
  passenger_count : Int := 1
deriving DecidableEq, Repr

/-- `InputData()` constructed with no fields supplied. -/
def inputDataDefault : InputData := {}

/-- `PredictionOut` of `web_service/lib/models.py` (the float field is
modelled as a rational). -/
structure PredictionOut where
  trip_duration_prediction : Rat
deriving DecidableEq, Repr

/-! ### The greeting demo endpoint
(`fast_api_tutorial/main.py`) -/

/-- A JSON value of a request-body field. -/
inductive JsonValue where
  | str : String → JsonValue
  | int : Int → JsonValue
  | float : Rat → JsonValue
  | bool : Bool → JsonValue
  | null : JsonValue
deriving DecidableEq, Repr

/-- `Item` of `fast_api_tutorial/main.py`: a pydantic record whose only
field `name` is a `StrictStr`. -/
structure Item where
  name : String
deriving DecidableEq, Repr

/-- pydantic validation of the `/greet` request body against `Item`:
`StrictStr` accepts a JSON string and rejects every other JSON type with
a 422 validation error (no coercion). -/
def validateItem (v : JsonValue) : Except String Item :=
  match v with
  | .str s => .ok ⟨s⟩
  | _ => .error "value is not a valid string"

/-- `greet_user(item)` of `fast_api_tutorial/main.py`: the handler body
run on an already validated `Item`. -/
def greet_user (item : Item) : String :=
  "Hello, " ++ item.name

/-- `POST /greet` end to end: the framework validates the body field
against `Item`, then runs `greet_user`; a validation failure is returned
as an error and the handler never runs. -/
def handleGreet (v : JsonValue) : Except String String :=
  (validateItem v).map greet_user

/-! ### Configuration constants
(`web_service/app_config.py` and
`lessons/03-pipeline-and-orchestration/lib/config.py`) -/

namespace AppConfig

/-- `MODEL_VERSION` of `web_service/app_config.py`. -/
def MODEL_VERSION : String := "0.0.1"

/-- `CATEGORICAL_VARS` of `web_service/app_config.py`. -/
def CATEGORICAL_VARS : List String :=
  ["PULocationID", "DOLocationID", "passenger_count"]

end AppConfig

namespace PipelineConfig

/-- `CATEGORICAL_COLS` of `lessons/03-pipeline-and-orchestration/lib/config.py`. -/
def CATEGORICAL_COLS : List String :=
  ["PULocationID", "DOLocationID", "passenger_count"]

end PipelineConfig

/-! ### The intro best-practices module
(`lessons/00-intro/best-practices/lib/hello_world.py`) -/

/-- `sum_two_numbers(num1, num2)`.  The function is untyped Python; the
spec quantifies over numeric inputs, which are modelled as rationals
(covering the ints and floats of the lesson). -/
def sum_two_numbers (num1 num2 : Rat) : Rat :=
  num1 + num2

/-- One row of the phone-call CSV file: a `name` and a `telephone`
column. -/
structure Person where
  name : String
  telephone : String
deriving DecidableEq, Repr

/-- `call_people()`: iterate over the rows of the CSV file and print one
line per row.  The CSV contents are passed explicitly and standard
output is modelled as the returned list of printed lines, in print
order. -/
def call_people : List Person → List String
  | [] => []
  | person :: rest =>
    ("Calling " ++ person.name ++ " at " ++ person.telephone) :: call_people rest

/-! ### Concrete sample inputs used to instantiate the general theorems -/

/-- The rational 3.7, built in lowest terms so the kernel can evaluate
with it. -/
def ratThreePointSeven : Rat := ⟨37, 10, by decide, by decide⟩

/-- A one-row ride batch with a missing pickup location and an extra
non-categorical column. -/
def dfNullSample : DataFrame :=
  ⟨[("PULocationID", [.null]),
    ("DOLocationID", [.int 2]),
    ("passenger_count", [.int 1]),
    ("store_and_fwd_flag", [.str "N"])]⟩

/-- `dfNullSample` after `encode_categorical_cols` with the default
column list. -/
def dfNullSampleEncoded : DataFrame :=
  ⟨[("PULocationID", [.str "-1"]),
    ("DOLocationID", [.str "2"]),
    ("passenger_count", [.str "1"]),
    ("store_and_fwd_flag", [.str "N"])]⟩

/-- `dfNullSample` with the missing pickup location replaced by a
genuine -1: a distinct table with the same encoding. -/
def dfMinusOneSample : DataFrame :=
  ⟨[("PULocationID", [.int (-1)]),
    ("DOLocationID", [.int 2]),
    ("passenger_count", [.int 1]),
    ("store_and_fwd_flag", [.str "N"])]⟩

/-- A one-row ride batch whose pickup location is the float 3.7. -/
def dfFloatSample : DataFrame :=
  ⟨[("PULocationID", [.float ratThreePointSeven]),
    ("DOLocationID", [.int 2]),
    ("passenger_count", [.int 1])]⟩

/-- `dfFloatSample` after `encode_categorical_cols`: 3.7 is truncated to
"3", not rendered as "3.7". -/
def dfFloatSampleEncoded : DataFrame :=
  ⟨[("PULocationID", [.str "3"]),
    ("DOLocationID", [.str "2"]),
    ("passenger_count", [.str "1"])]⟩

/-! ### Decimal printing parses back to the printed integer -/

theorem foldr_natDigitsRevAux (fuel : Nat) :
    ∀ n : Nat, n ≤ fuel →
      (natDigitsRevAux fuel n).foldr (fun d acc => acc * 10 + d) 0 = n := by
  induction fuel with
  | zero =>
    intro n hn
    interval_cases n
    rfl
  | succ fuel ih =>
    intro n hn
    match n with
    | 0 => rfl
    | m + 1 =>
      have hdiv : (m + 1) / 10 ≤ fuel := by omega
      simp only [natDigitsRevAux, List.foldr_cons, ih _ hdiv]
      omega

theorem natDigitsRevAux_lt_ten (fuel : Nat) :
    ∀ n d, d ∈ natDigitsRevAux fuel n → d < 10 := by
  induction fuel with
  | zero =>
    intro n d hd
    simp [natDigitsRevAux] at hd
  | succ fuel ih =>
    intro n d hd
    match n with
    | 0 => simp [natDigitsRevAux] at hd
    | m + 1 =>
      simp only [natDigitsRevAux, List.mem_cons] at hd
      rcases hd with h | h
      · omega
      · exact ih _ _ h

theorem digitChar_isDigit {d : Nat} (h : d < 10) : (Nat.digitChar d).isDigit = true := by
  interval_cases d <;> rfl

theorem digitChar_toNat {d : Nat} (h : d < 10) : (Nat.digitChar d).toNat - 48 = d := by
  interval_cases d <;> rfl

theorem natDigitsRev_ne_nil {n : Nat} (h : n ≠ 0) : natDigitsRev n ≠ [] := by
  match n, h with
  | m + 1, _ => simp [natDigitsRev, natDigitsRevAux]

theorem natDecimalChars_ne_nil (n : Nat) : natDecimalChars n ≠ [] := by
  unfold natDecimalChars
  split
  · simp
  · simpa using natDigitsRev_ne_nil (by assumption)

theorem natDecimalChars_all_digits {n : Nat} :
    ∀ c ∈ natDecimalChars n, c.isDigit = true := by
  unfold natDecimalChars
  split
  · intro c hc
    simp only [List.mem_singleton] at hc
    subst hc
    rfl
  · intro c hc
    rw [List.mem_reverse] at hc
    obtain ⟨d, hd, rfl⟩ := List.mem_map.1 hc
    exact digitChar_isDigit (natDigitsRevAux_lt_ten _ _ _ hd)

theorem foldr_digitChar_eq (l : List Nat) (hl : ∀ d ∈ l, d < 10) :
    l.foldr (fun d acc => acc * 10 + ((Nat.digitChar d).toNat - 48)) 0 =
      l.foldr (fun d acc => acc * 10 + d) 0 := by
  induction l with
  | nil => rfl
  | cons d rest ih =>
    simp only [List.foldr_cons]
    rw [ih (fun x hx => hl x (List.mem_cons_of_mem _ hx)),
      digitChar_toNat (hl d (List.mem_cons_self _ _))]

theorem parseNatChars_natDecimalChars (n : Nat) :
    parseNatChars (natDecimalChars n) = some n := by
  by_cases h0 : n = 0
  · subst h0
    decide
  · unfold parseNatChars
    rw [if_pos ⟨natDecimalChars_ne_nil n,
      by simpa [List.all_eq_true] using natDecimalChars_all_digits (n := n)⟩]
    congr 1
    conv_lhs => rw [natDecimalChars, if_neg h0]
    rw [List.foldl_reverse, List.foldr_map]
    rw [foldr_digitChar_eq (natDigitsRev n) (fun d hd => natDigitsRevAux_lt_ten n n d hd)]
    exact foldr_natDigitsRevAux n n (Nat.le_refl n)

theorem isDigit_ne_sign {c : Char} (h : c.isDigit = true) : c ≠ '-' ∧ c ≠ '+' := by
  constructor
  · intro hc
    subst hc
    exact absurd h (by decide)
  · intro hc
    subst hc
    exact absurd h (by decide)

theorem parseIntChars_intDecimalChars (k : Int) :
    parseIntChars (intDecimalChars k) = some k := by
  unfold intDecimalChars
  split
  next hneg =>
    have h1 : parseIntChars ('-' :: natDecimalChars k.natAbs) =
        (parseNatChars (natDecimalChars k.natAbs)).map (fun n => -(n : Int)) := rfl
    rw [h1, parseNatChars_natDecimalChars]
    exact congrArg some (by show -((k.natAbs : Nat) : Int) = k; omega)
  next hpos =>
    obtain ⟨c, rest, hcr⟩ : ∃ c rest, natDecimalChars k.natAbs = c :: rest := by
      cases h : natDecimalChars k.natAbs with
      | nil => exact absurd h (natDecimalChars_ne_nil _)
      | cons c r => exact ⟨c, r, rfl⟩
    have hcd : c.isDigit = true :=
      natDecimalChars_all_digits c (hcr ▸ List.mem_cons_self _ _)
    obtain ⟨hm, hp⟩ := isDigit_ne_sign hcd
    rw [hcr]
    simp only [parseIntChars]
    rw [if_neg hm, if_neg hp, ← hcr, parseNatChars_natDecimalChars]
    exact congrArg some (by show ((k.natAbs : Nat) : Int) = k; omega)

theorem astypeIntCell_roundtrip (k : Int) :
    astypeIntCell (.str (intToDecimalString k)) = some (.int k) := by
  show (parseIntChars (intDecimalChars k)).map Cell.int = some (.int k)
  rw [parseIntChars_intDecimalChars]
  rfl

/-! ### Column lookup and assignment -/

theorem lookup_map_set_self (name : String) (v : List Cell) :
    ∀ (l : List (String × List Cell)) (c : List Cell),
      l.lookup name = some c →
      (l.map (fun p => if p.1 = name then (name, v) else p)).lookup name = some v := by
  intro l
  induction l with
  | nil =>
    intro c h
    simp at h
  | cons p es ih =>
    intro c h
    obtain ⟨k, b⟩ := p
    by_cases hk : k = name
    · subst hk
      simp [List.lookup_cons]
    · have hbeq : (name == k) = false := beq_eq_false_iff_ne.2 (Ne.symm hk)
      rw [List.lookup_cons, hbeq] at h
      simp only [List.map_cons, if_neg hk]
      rw [List.lookup_cons, hbeq]
      exact ih c h

theorem lookup_map_set_ne (name m : String) (v : List Cell) (hne : m ≠ name) :
    ∀ l : List (String × List Cell),
      (l.map (fun p => if p.1 = name then (name, v) else p)).lookup m = l.lookup m := by
  intro l
  induction l with
  | nil => rfl
  | cons p es ih =>
    obtain ⟨k, b⟩ := p
    by_cases hk : k = name
    · subst hk
      have hbeq : (m == k) = false := beq_eq_false_iff_ne.2 hne
      simp [List.lookup_cons, hbeq, ih]
    · simp only [List.map_cons, if_neg hk]
      rw [List.lookup_cons, List.lookup_cons]
      cases hmk : m == k
      · exact ih
      · rfl

theorem map_fst_map_set (name : String) (v : List Cell) (l : List (String × List Cell)) :
    (l.map (fun p => if p.1 = name then (name, v) else p)).map Prod.fst = l.map Prod.fst := by
  induction l with
  | nil => rfl
  | cons p es ih =>
    obtain ⟨k, b⟩ := p
    by_cases hk : k = name
    · subst hk
      simp [ih]
    · simp [if_neg hk, ih]

theorem map_set_not_mem (name : String) (c : List Cell) :
    ∀ l : List (String × List Cell),
      name ∉ l.map Prod.fst →
      l.map (fun p => if p.1 = name then (name, c) else p) = l := by
  intro l
  induction l with
  | nil => intro _; rfl
  | cons p es ih =>
    intro h
    simp only [List.map_cons, List.mem_cons, not_or] at h
    rw [List.map_cons, if_neg (fun e => h.1 e.symm), ih h.2]

theorem map_set_self_of_nodup (name : String) :
    ∀ (l : List (String × List Cell)) (c : List Cell),
      (l.map Prod.fst).Nodup → l.lookup name = some c →
      l.map (fun p => if p.1 = name then (name, c) else p) = l := by
  intro l
  induction l with
  | nil =>
    intro c _ h
    simp at h
  | cons p es ih =>
    intro c hnd h
    obtain ⟨k, b⟩ := p
    simp only [List.map_cons, List.nodup_cons] at hnd
    by_cases hk : k = name
    · subst hk
      rw [List.lookup_cons_self] at h
      obtain rfl : b = c := Option.some.inj h
      rw [List.map_cons, if_pos rfl, map_set_not_mem _ _ _ hnd.1]
    · have hbeq : (name == k) = false := beq_eq_false_iff_ne.2 (Ne.symm hk)
      rw [List.lookup_cons, hbeq] at h
      rw [List.map_cons, if_neg hk, ih c hnd.2 h]

theorem DataFrame.getCol_setCol_self {df : DataFrame} {name : String} {c : List Cell}
    (v : List Cell) (h : df.getCol name = some c) :
    (df.setCol name v).getCol name = some v :=
  lookup_map_set_self name v df.cols c h

theorem DataFrame.getCol_setCol_ne {df : DataFrame} {name m : String} (v : List Cell)
    (hne : m ≠ name) : (df.setCol name v).getCol m = df.getCol m :=
  lookup_map_set_ne name m v hne df.cols

theorem DataFrame.names_setCol (df : DataFrame) (name : String) (v : List Cell) :
    (df.setCol name v).names = df.names :=
  map_fst_map_set name v df.cols

theorem DataFrame.setCol_self {df : DataFrame} {name : String} {c : List Cell}
    (hnd : df.NodupNames) (h : df.getCol name = some c) : df.setCol name c = df := by
  cases df with
  | mk l => exact congrArg DataFrame.mk (map_set_self_of_nodup name l c hnd h)

/-! ### The columnwise update fold -/

theorem setColsMapped_cons_eq_some {df df' : DataFrame} {name : String}
    {rest : List String} {f : List Cell → Option (List Cell)}
    (h : setColsMapped df (name :: rest) f = some df') :
    ∃ col col2, df.getCol name = some col ∧ f col = some col2 ∧
      setColsMapped (df.setCol name col2) rest f = some df' := by
  cases hcol : df.getCol name with
  | none => simp [setColsMapped, hcol] at h
  | some col =>
    cases hc2 : f col with
    | none => simp [setColsMapped, hcol, hc2] at h
    | some col2 =>
      simp only [setColsMapped, hcol, hc2, Option.bind_eq_bind, Option.some_bind] at h
      exact ⟨col, col2, rfl, hc2, h⟩

theorem setColsMapped_getCol_not_mem {f : List Cell → Option (List Cell)} :
    ∀ (names : List String) (df df' : DataFrame),
      setColsMapped df names f = some df' →
      ∀ m, m ∉ names → df'.getCol m = df.getCol m := by
  intro names
  induction names with
  | nil =>
    intro df df' h m _
    simp only [setColsMapped] at h
    exact (Option.some.inj h) ▸ rfl
  | cons name rest ih =>
    intro df df' h m hm
    obtain ⟨col, col2, _, _, hrec⟩ := setColsMapped_cons_eq_some h
    have hm1 : m ≠ name := fun e => hm (e ▸ List.mem_cons_self _ _)
    have hm2 : m ∉ rest := fun e => hm (List.mem_cons_of_mem _ e)
    rw [ih _ _ hrec m hm2, DataFrame.getCol_setCol_ne _ hm1]

theorem setColsMapped_names {f : List Cell → Option (List Cell)} :
    ∀ (names : List String) (df df' : DataFrame),
      setColsMapped df names f = some df' → df'.names = df.names := by
  intro names
  induction names with
  | nil =>
    intro df df' h
    simp only [setColsMapped] at h
    exact (Option.some.inj h) ▸ rfl
  | cons name rest ih =>
    intro df df' h
    obtain ⟨col, col2, _, _, hrec⟩ := setColsMapped_cons_eq_some h
    rw [ih _ _ hrec, DataFrame.names_setCol]

theorem setColsMapped_getCol_mem {f : List Cell → Option (List Cell)} :
    ∀ (names : List String) (df df' : DataFrame),
      names.Nodup → setColsMapped df names f = some df' →
      ∀ name ∈ names,
        ∃ col col2, df.getCol name = some col ∧ f col = some col2 ∧
          df'.getCol name = some col2 := by
  intro names
  induction names with
  | nil =>
    intro df df' _ _ name hmem
    simp at hmem
  | cons nm rest ih =>
    intro df df' hnd h name hmem
    obtain ⟨col, col2, hcol, hc2, hrec⟩ := setColsMapped_cons_eq_some h
    obtain ⟨hnotin, hndrest⟩ := List.nodup_cons.1 hnd
    rcases List.mem_cons.1 hmem with rfl | hmem2
    · refine ⟨col, col2, hcol, hc2, ?_⟩
      rw [setColsMapped_getCol_not_mem rest _ _ hrec name hnotin]
      exact DataFrame.getCol_setCol_self col2 hcol
    · have hne : name ≠ nm := fun e => hnotin (e ▸ hmem2)
      obtain ⟨c, c2, hc, hfc, hg⟩ := ih _ _ hndrest hrec name hmem2
      rw [DataFrame.getCol_setCol_ne _ hne] at hc
      exact ⟨c, c2, hc, hfc, hg⟩

theorem setColsMapped_isSome {f : List Cell → Option (List Cell)} :
    ∀ (names : List String) (df : DataFrame),
      names.Nodup →
      (∀ name ∈ names, ∃ col, df.getCol name = some col ∧ (f col).isSome) →
      ∃ df', setColsMapped df names f = some df' := by
  intro names
  induction names with
  | nil =>
    intro df _ _
    exact ⟨df, rfl⟩
  | cons nm rest ih =>
    intro df hnd hall
    obtain ⟨hnotin, hndrest⟩ := List.nodup_cons.1 hnd
    obtain ⟨col, hcol, hsome⟩ := hall nm (List.mem_cons_self _ _)
    obtain ⟨col2, hc2⟩ := Option.isSome_iff_exists.1 hsome
    obtain ⟨df', hdf'⟩ := ih (df.setCol nm col2) hndrest (by
      intro name hname
      have hne : name ≠ nm := fun e => hnotin (e ▸ hname)
      obtain ⟨c, hc, hs⟩ := hall name (List.mem_cons_of_mem _ hname)
      exact ⟨c, by rw [DataFrame.getCol_setCol_ne _ hne]; exact hc, hs⟩)
    refine ⟨df', ?_⟩
    simp only [setColsMapped, hcol, hc2, Option.bind_eq_bind, Option.some_bind]
    exact hdf'

theorem setColsMapped_id {f : List Cell → Option (List Cell)} :
    ∀ (names : List String) (df : DataFrame),
      df.NodupNames →
      (∀ name ∈ names, ∃ col, df.getCol name = some col ∧ f col = some col) →
      setColsMapped df names f = some df := by
  intro names
  induction names with
  | nil => intro df _ _; rfl
  | cons nm rest ih =>
    intro df hnd hall
    obtain ⟨col, hcol, hfix⟩ := hall nm (List.mem_cons_self _ _)
    simp only [setColsMapped, hcol, hfix, Option.bind_eq_bind, Option.some_bind]
    rw [DataFrame.setCol_self hnd hcol]
    exact ih df hnd (fun name hname => hall name (List.mem_cons_of_mem _ hname))

/-! ### Cellwise casts over a column -/

theorem mapCellsM_cons_eq_some {g : Cell → Option Cell} {c : Cell} {rest : List Cell}
    {l2 : List Cell} (h : mapCellsM g (c :: rest) = some l2) :
    ∃ c2 rest2, g c = some c2 ∧ mapCellsM g rest = some rest2 ∧ l2 = c2 :: rest2 := by
  cases hc : g c with
  | none => simp [mapCellsM, hc] at h
  | some c2 =>
    cases hrest : mapCellsM g rest with
    | none => simp [mapCellsM, hc, hrest] at h
    | some rest2 =>
      simp only [mapCellsM, hc, hrest, Option.bind_some] at h
      exact ⟨c2, rest2, rfl, rfl, (Option.some.inj h).symm⟩

theorem mapCellsM_length {g : Cell → Option Cell} :
    ∀ {l l2 : List Cell}, mapCellsM g l = some l2 → l2.length = l.length := by
  intro l
  induction l with
  | nil =>
    intro l2 h
    simp only [mapCellsM] at h
    rw [← Option.some.inj h]
  | cons c rest ih =>
    intro l2 h
    obtain ⟨c2, rest2, _, hrest, rfl⟩ := mapCellsM_cons_eq_some h
    simp [ih hrest]

theorem mapCellsM_get {g : Cell → Option Cell} :
    ∀ {l l2 : List Cell}, mapCellsM g l = some l2 →
      ∀ i (h1 : i < l.length) (h2 : i < l2.length),
        g (l.get ⟨i, h1⟩) = some (l2.get ⟨i, h2⟩) := by
  intro l
  induction l with
  | nil =>
    intro l2 _ i h1 _
    exact absurd h1 (Nat.not_lt_zero i)
  | cons c rest ih =>
    intro l2 h i h1 h2
    obtain ⟨c2, rest2, hc, hrest, rfl⟩ := mapCellsM_cons_eq_some h
    match i with
    | 0 => exact hc
    | j + 1 =>
      exact ih hrest j (Nat.lt_of_succ_lt_succ h1) (Nat.lt_of_succ_lt_succ h2)

theorem mapCellsM_mem {g : Cell → Option Cell} :
    ∀ {l l2 : List Cell}, mapCellsM g l = some l2 →
      ∀ c2 ∈ l2, ∃ c ∈ l, g c = some c2 := by
  intro l
  induction l with
  | nil =>
    intro l2 h c2 hc2
    simp only [mapCellsM] at h
    rw [← Option.some.inj h] at hc2
    simp at hc2
  | cons c rest ih =>
    intro l2 h c2 hc2
    obtain ⟨d2, rest2, hd, hrest, rfl⟩ := mapCellsM_cons_eq_some h
    rcases List.mem_cons.1 hc2 with rfl | hc2'
    · exact ⟨c, List.mem_cons_self _ _, hd⟩
    · obtain ⟨d, hdl, hgd⟩ := ih hrest c2 hc2'
      exact ⟨d, List.mem_cons_of_mem _ hdl, hgd⟩

theorem mapCellsM_isSome {g : Cell → Option Cell} :
    ∀ {l : List Cell}, (∀ c ∈ l, (g c).isSome) → (mapCellsM g l).isSome := by
  intro l
  induction l with
  | nil => intro _; rfl
  | cons c rest ih =>
    intro h
    obtain ⟨c2, hc2⟩ := Option.isSome_iff_exists.1 (h c (List.mem_cons_self _ _))
    obtain ⟨rest2, hrest⟩ :=
      Option.isSome_iff_exists.1 (ih (fun d hd => h d (List.mem_cons_of_mem _ hd)))
    simp [mapCellsM, hc2, hrest]

/-! ### Cell-level facts about the casts -/

theorem astypeIntCell_is_int {c c2 : Cell} (h : astypeIntCell c = some c2) :
    ∃ k, c2 = .int k := by
  cases c with
  | null => simp [astypeIntCell] at h
  | int n => exact ⟨n, (Option.some.inj h).symm⟩
  | float q => exact ⟨ratTruncTowardZero q, (Option.some.inj h).symm⟩
  | str s =>
    simp only [astypeIntCell] at h
    cases hp : parseIntChars s.data with
    | none => rw [hp] at h; simp at h
    | some k =>
      rw [hp] at h
      exact ⟨k, (Option.some.inj h).symm⟩

theorem astypeStrCell_is_str (c : Cell) : ∃ s, astypeStrCell c = .str s := by
  cases c with
  | null => exact ⟨_, rfl⟩
  | int n => exact ⟨_, rfl⟩
  | float q => exact ⟨_, rfl⟩
  | str s => exact ⟨_, rfl⟩

theorem fillna_astypeStr (c : Cell) : fillnaCell (astypeStrCell c) = astypeStrCell c := by
  cases c <;> rfl

theorem map_fillna_astypeStr (l : List Cell) :
    (l.map astypeStrCell).map fillnaCell = l.map astypeStrCell := by
  rw [List.map_map]
  exact List.map_congr_left (fun c _ => fillna_astypeStr c)

theorem astypeIntCell_fillna_isSome {c : Cell} (h : ∀ s, c ≠ .str s) :
    (astypeIntCell (fillnaCell c)).isSome := by
  cases c with
  | null => rfl
  | int n => rfl
  | float q => rfl
  | str s => exact absurd rfl (h s)

theorem encodeColInt_astypeStr_ints :
    ∀ colI : List Cell, (∀ c ∈ colI, ∃ k, c = .int k) →
      encodeColInt (colI.map astypeStrCell) = some colI := by
  intro colI
  induction colI with
  | nil => intro _; rfl
  | cons c rest ih =>
    intro h
    obtain ⟨k, rfl⟩ := h c (List.mem_cons_self _ _)
    have htail : encodeColInt (rest.map astypeStrCell) = some rest :=
      ih (fun d hd => h d (List.mem_cons_of_mem _ hd))
    rw [encodeColInt, map_fillna_astypeStr] at htail
    have hmap : ((Cell.int k :: rest).map astypeStrCell).map fillnaCell
        = astypeStrCell (.int k) :: rest.map astypeStrCell := by
      simp only [List.map_cons]
      rw [fillna_astypeStr, map_fillna_astypeStr]
    have hhead : astypeIntCell (astypeStrCell (.int k)) = some (.int k) :=
      astypeIntCell_roundtrip k
    rw [encodeColInt, hmap]
    simp only [mapCellsM, hhead, htail, Option.bind_eq_bind, Option.some_bind]
    rfl

/-! ### DataFrame extensionality -/

theorem lookup_eq_none_of_not_mem :
    ∀ (l : List (String × List Cell)) (name : String),
      name ∉ l.map Prod.fst → l.lookup name = none := by
  intro l
  induction l with
  | nil => intro _ _; rfl
  | cons p es ih =>
    intro name h
    obtain ⟨k, b⟩ := p
    simp only [List.map_cons, List.mem_cons, not_or] at h
    have hbeq : (name == k) = false := beq_eq_false_iff_ne.2 h.1
    rw [List.lookup_cons, hbeq]
    exact ih name h.2

theorem assoc_eq_of_lookup :
    ∀ (l l' : List (String × List Cell)),
      (l.map Prod.fst).Nodup → l'.map Prod.fst = l.map Prod.fst →
      (∀ name, l'.lookup name = l.lookup name) → l' = l := by
  intro l
  induction l with
  | nil =>
    intro l' _ hnames _
    simpa using hnames
  | cons p es ih =>
    intro l' hnd hnames hlook
    obtain ⟨k, b⟩ := p
    cases l' with
    | nil => simp at hnames
    | cons p' es' =>
      obtain ⟨k', b'⟩ := p'
      simp only [List.map_cons, List.cons.injEq] at hnames
      obtain ⟨rfl, htl⟩ := hnames
      simp only [List.map_cons, List.nodup_cons] at hnd
      have hb := hlook k'
      rw [List.lookup_cons_self, List.lookup_cons_self] at hb
      obtain rfl : b' = b := Option.some.inj hb
      have htails : ∀ name, es'.lookup name = es.lookup name := by
        intro name
        by_cases hk : name = k'
        · subst hk
          rw [lookup_eq_none_of_not_mem es name hnd.1,
            lookup_eq_none_of_not_mem es' name (htl ▸ hnd.1)]
        · have hbeq : (name == k') = false := beq_eq_false_iff_ne.2 hk
          have hx := hlook name
          rwa [List.lookup_cons, List.lookup_cons, hbeq] at hx
      rw [ih es' hnd.2 htl htails]

theorem DataFrame.eq_of_getCol {df df' : DataFrame}
    (hnd : df.NodupNames) (hnames : df'.names = df.names)
    (hlook : ∀ name, df'.getCol name = df.getCol name) : df' = df := by
  cases df with
  | mk l =>
    cases df' with
    | mk l' => exact congrArg DataFrame.mk (assoc_eq_of_lookup l l' hnd hnames hlook)

/-! ### Unfolding the encoder -/

theorem encode_destruct {df df' : DataFrame} {cc : Option (List String)}
    (h : encode_categorical_cols df cc = some df') :
    ∃ df1, setColsMapped df (cc.getD CATEGORICAL_COLS) encodeColInt = some df1 ∧
      setColsMapped df1 (cc.getD CATEGORICAL_COLS)
        (fun col => some (col.map astypeStrCell)) = some df' := by
  cases h1 : setColsMapped df (cc.getD CATEGORICAL_COLS) encodeColInt with
  | none => simp [encode_categorical_cols, h1] at h
  | some df1 =>
    cases h2 : setColsMapped df1 (cc.getD CATEGORICAL_COLS)
        (fun col => some (col.map astypeStrCell)) with
    | none => simp [encode_categorical_cols, h1, h2] at h
    | some df2 =>
      have hdd : df2 = df' := by
        simpa [encode_categorical_cols, h1, h2] using h
      exact ⟨df1, rfl, hdd ▸ h2⟩

theorem encode_construct {df df1 df' : DataFrame} {cc : Option (List String)}
    (h1 : setColsMapped df (cc.getD CATEGORICAL_COLS) encodeColInt = some df1)
    (h2 : setColsMapped df1 (cc.getD CATEGORICAL_COLS)
      (fun col => some (col.map astypeStrCell)) = some df') :
    encode_categorical_cols df cc = some df' := by
  simp [encode_categorical_cols, h1, h2]

/-- For a named categorical column present in the input, the output
column is exactly the integer-cast column mapped through the string
cast. -/
theorem encode_col_char {df df' : DataFrame} {cc : Option (List String)}
    (hnd : (cc.getD CATEGORICAL_COLS).Nodup)
    (h : encode_categorical_cols df cc = some df')
    {name : String} (hmem : name ∈ cc.getD CATEGORICAL_COLS)
    {col : List Cell} (hcol : df.getCol name = some col) :
    ∃ colI, encodeColInt col = some colI ∧
      df'.getCol name = some (colI.map astypeStrCell) := by
  obtain ⟨df1, h1, h2⟩ := encode_destruct h
  obtain ⟨c, colI, hc, henc, hg1⟩ := setColsMapped_getCol_mem _ _ _ hnd h1 name hmem
  obtain rfl : c = col := by
    rw [hcol] at hc
    exact Option.some.inj hc.symm
  obtain ⟨c2, col2, hc2, hmap, hg2⟩ := setColsMapped_getCol_mem _ _ _ hnd h2 name hmem
  obtain rfl : colI = c2 := by
    rw [hg1] at hc2
    exact Option.some.inj hc2
  refine ⟨colI, henc, ?_⟩
  rw [hg2]
  exact congrArg some (Option.some.inj hmap).symm

/-! ### Claim theorems -/

/-- C2: for every input table, `encode_categorical_cols` keeps the column
name sequence intact and leaves every column not named in the categorical
column list (the given list, or `CATEGORICAL_COLS` when none is given)
unchanged; only the named columns are overwritten in the returned
table. -/
theorem claim_encoder_frame (df df' : DataFrame) (cc : Option (List String))
    (h : encode_categorical_cols df cc = some df') :
    df'.names = df.names ∧
    ∀ name, name ∉ cc.getD CATEGORICAL_COLS → df'.getCol name = df.getCol name := by
  obtain ⟨df1, h1, h2⟩ := encode_destruct h
  constructor
  · rw [setColsMapped_names _ _ _ h2, setColsMapped_names _ _ _ h1]
  · intro name hname
    rw [setColsMapped_getCol_not_mem _ _ _ h2 name hname,
      setColsMapped_getCol_not_mem _ _ _ h1 name hname]

/-- Witness for C2 at a concrete table: the non-categorical column
`store_and_fwd_flag` is untouched and the column names survive. -/
theorem claim_encoder_frame_witness :
    dfNullSampleEncoded.names = dfNullSample.names ∧
    dfNullSampleEncoded.getCol "store_and_fwd_flag" =
      dfNullSample.getCol "store_and_fwd_flag" :=
  ⟨(claim_encoder_frame dfNullSample dfNullSampleEncoded none (by decide)).1,
   (claim_encoder_frame dfNullSample dfNullSampleEncoded none (by decide)).2
     "store_and_fwd_flag" (by decide)⟩

/-- C3: `POST /greet` answers `Hello, {name}` for every string-valued
`name` field, and rejects every non-string `name` with a validation
error, producing no greeting at all. -/
theorem claim_greet_strict_string :
    (∀ s : String, handleGreet (.str s) = .ok ("Hello, " ++ s)) ∧
    (∀ v : JsonValue, (∀ s, v ≠ .str s) → ∀ r, handleGreet v ≠ .ok r) := by
  constructor
  · intro s
    rfl
  · intro v hv r
    cases v with
    | str s => exact absurd rfl (hv s)
    | int n => exact fun h => Except.noConfusion h
    | float q => exact fun h => Except.noConfusion h
    | bool b => exact fun h => Except.noConfusion h
    | null => exact fun h => Except.noConfusion h

/-- Witness for C3: the integer body `5` is rejected and in particular
never yields the greeting `Hello, 5`. -/
theorem claim_greet_strict_string_witness :
    handleGreet (.int 5) ≠ .ok "Hello, 5" :=
  claim_greet_strict_string.2 (.int 5) (fun _ h => JsonValue.noConfusion h) "Hello, 5"

/-- C4: `InputData()` constructed with no fields supplied yields exactly
the defaults 264, 264, 1, each field typed as an integer. -/
theorem claim_inputdata_defaults :
    inputDataDefault.PULocationID = (264 : Int) ∧
    inputDataDefault.DOLocationID = (264 : Int) ∧
    inputDataDefault.passenger_count = (1 : Int) :=
  ⟨rfl, rfl, rfl⟩

/-- C5: the categorical-columns constant is the fixed ordered three-name
list, and all three copies (preprocessing, web-service config, pipeline
config) agree element for element in the same order. -/
theorem claim_categorical_constants_agree :
    CATEGORICAL_COLS = ["PULocationID", "DOLocationID", "passenger_count"] ∧
    AppConfig.CATEGORICAL_VARS = CATEGORICAL_COLS ∧
    PipelineConfig.CATEGORICAL_COLS = CATEGORICAL_COLS :=
  ⟨rfl, rfl, rfl⟩

/-- C6: `sum_two_numbers` returns the sum of its two numeric arguments
and is commutative. -/
theorem claim_sum_two_numbers (a b : Rat) :
    sum_two_numbers a b = a + b ∧ sum_two_numbers a b = sum_two_numbers b a :=
  ⟨rfl, add_comm a b⟩

theorem call_people_length : ∀ rows : List Person,
    (call_people rows).length = rows.length := by
  intro rows
  induction rows with
  | nil => rfl
  | cons p rest ih => simp [call_people, ih]

theorem call_people_get :
    ∀ (rows : List Person) (i : Nat) (h1 : i < rows.length)
      (h2 : i < (call_people rows).length),
      (call_people rows).get ⟨i, h2⟩ =
        "Calling " ++ (rows.get ⟨i, h1⟩).name ++ " at " ++ (rows.get ⟨i, h1⟩).telephone := by
  intro rows
  induction rows with
  | nil =>
    intro i h1 _
    exact absurd h1 (Nat.not_lt_zero i)
  | cons p rest ih =>
    intro i h1 h2
    match i with
    | 0 => rfl
    | j + 1 => exact ih j (Nat.lt_of_succ_lt_succ h1) (Nat.lt_of_succ_lt_succ h2)

/-- C7: on the CSV contents `[("Ada", "555-1234")]` the call simulation
prints exactly one line, containing both the name and the number; in
general each row produces exactly one printed line, in row order. -/
theorem claim_call_people_lines :
    (call_people [⟨"Ada", "555-1234"⟩]).length = 1 ∧
    (∃ pre post, (call_people [⟨"Ada", "555-1234"⟩]).headD "" = pre ++ "Ada" ++ post) ∧
    (∃ pre post,
      (call_people [⟨"Ada", "555-1234"⟩]).headD "" = pre ++ "555-1234" ++ post) ∧
    (∀ rows : List Person, (call_people rows).length = rows.length) ∧
    (∀ (rows : List Person) (i : Nat) (h1 : i < rows.length)
      (h2 : i < (call_people rows).length),
      (call_people rows).get ⟨i, h2⟩ =
        "Calling " ++ (rows.get ⟨i, h1⟩).name ++ " at " ++ (rows.get ⟨i, h1⟩).telephone) := by
  refine ⟨rfl, ⟨"Calling ", " at 555-1234", by decide⟩,
    ⟨"Calling Ada at ", "", by decide⟩, call_people_length, call_people_get⟩

/-- Witness for C7: the single printed line for Ada, via the row-order
part of the claim at row 0. -/
theorem claim_call_people_lines_witness :
    (call_people [⟨"Ada", "555-1234"⟩]).get ⟨0, by decide⟩ =
      "Calling " ++ "Ada" ++ " at " ++ "555-1234" :=
  claim_call_people_lines.2.2.2.2 [⟨"Ada", "555-1234"⟩] 0 (by decide) (by decide)

/-- C9: the sentinel encoding is not injective: a table with a missing
pickup location and the same table with a genuine -1 pickup location are
distinct inputs with identical encodings. -/
theorem claim_sentinel_not_injective :
    dfNullSample ≠ dfMinusOneSample ∧
    encode_categorical_cols dfNullSample none =
      encode_categorical_cols dfMinusOneSample none := by
  exact ⟨by decide, by decide⟩

/-- C1: after a successful `encode_categorical_cols`, every value in the
categorical columns (the given list, or the default `CATEGORICAL_COLS`
when no list is given) is a string, and every null value has become the
string "-1": the missing value is replaced by the sentinel -1, cast to
integer, then cast to string. -/
theorem claim_encoder_strings_and_sentinel
    (df df' : DataFrame) (cc : Option (List String))
    (hnd : (cc.getD CATEGORICAL_COLS).Nodup)
    (h : encode_categorical_cols df cc = some df') :
    ∀ name ∈ cc.getD CATEGORICAL_COLS, ∀ col, df.getCol name = some col →
      ∃ col', df'.getCol name = some col' ∧ col'.length = col.length ∧
        (∀ c ∈ col', ∃ s, c = .str s) ∧
        (∀ i (h1 : i < col.length) (h2 : i < col'.length),
          col.get ⟨i, h1⟩ = .null → col'.get ⟨i, h2⟩ = .str "-1") := by
  intro name hmem col hcol
  obtain ⟨colI, henc, hout⟩ := encode_col_char hnd h hmem hcol
  have hlenI : colI.length = col.length := by
    rw [mapCellsM_length henc, List.length_map]
  refine ⟨colI.map astypeStrCell, hout, ?_, ?_, ?_⟩
  · rw [List.length_map, hlenI]
  · intro c hc
    obtain ⟨d, _, rfl⟩ := List.mem_map.1 hc
    exact astypeStrCell_is_str d
  · intro i h1 h2 hnull
    have hI : i < colI.length := by rw [hlenI]; exact h1
    have hfill : i < (col.map fillnaCell).length := by rw [List.length_map]; exact h1
    have hget := mapCellsM_get henc i hfill hI
    have hcell : (col.map fillnaCell).get ⟨i, hfill⟩ = Cell.int (-1) := by
      simp only [List.get_eq_getElem, List.getElem_map]
      simp only [List.get_eq_getElem] at hnull
      rw [hnull]
      rfl
    rw [hcell] at hget
    have hIcell : colI.get ⟨i, hI⟩ = Cell.int (-1) :=
      (Option.some.inj hget).symm
    simp only [List.get_eq_getElem, List.getElem_map]
    simp only [List.get_eq_getElem] at hIcell
    rw [hIcell]
    decide

/-- Witness for C1 at a concrete table: the null pickup location encodes
to the string "-1" and the whole column becomes strings. -/
theorem claim_encoder_strings_and_sentinel_witness :
    ∃ col', dfNullSampleEncoded.getCol "PULocationID" = some col' ∧
      col'.length = ([Cell.null] : List Cell).length ∧
      (∀ c ∈ col', ∃ s, c = .str s) ∧
      (∀ i (h1 : i < ([Cell.null] : List Cell).length) (h2 : i < col'.length),
        ([Cell.null] : List Cell).get ⟨i, h1⟩ = .null →
          col'.get ⟨i, h2⟩ = .str "-1") :=
  claim_encoder_strings_and_sentinel dfNullSample dfNullSampleEncoded none
    (by decide) (by decide) "PULocationID" (by decide) [Cell.null] (by decide)

/-- C10: a float in a categorical column is encoded as the decimal string
of its truncation toward zero (floor for nonnegative values, ceiling for
nonpositive ones), so 3.7 becomes "3", not "3.7". -/
theorem claim_float_truncation :
    (∀ q : Rat, 0 ≤ q → ratTruncTowardZero q = ⌊q⌋) ∧
    (∀ q : Rat, q ≤ 0 → ratTruncTowardZero q = ⌈q⌉) ∧
    (∀ (df df' : DataFrame) (cc : Option (List String)),
      (cc.getD CATEGORICAL_COLS).Nodup →
      encode_categorical_cols df cc = some df' →
      ∀ name ∈ cc.getD CATEGORICAL_COLS, ∀ col, df.getCol name = some col →
        ∃ col', df'.getCol name = some col' ∧
          ∀ i (h1 : i < col.length) (h2 : i < col'.length), ∀ q : Rat,
            col.get ⟨i, h1⟩ = .float q →
            col'.get ⟨i, h2⟩ = .str (intToDecimalString (ratTruncTowardZero q))) := by
  refine ⟨?_, ?_, ?_⟩
  · intro q hq
    have hnum : 0 ≤ q.num := Rat.num_nonneg.2 hq
    have hden : (0 : Int) ≤ (q.den : Int) := Int.ofNat_nonneg q.den
    rw [ratTruncTowardZero, Int.tdiv_eq_ediv hnum hden, Rat.floor_def]
  · intro q hq
    have hnum : q.num ≤ 0 := Rat.num_nonpos.2 hq
    have hden : (0 : Int) ≤ (q.den : Int) := Int.ofNat_nonneg q.den
    have h1 : ratTruncTowardZero q = -(Int.tdiv (-q.num) (q.den : Int)) := by
      rw [ratTruncTowardZero, ← Int.neg_tdiv, Int.neg_neg]
    rw [h1, Int.tdiv_eq_ediv (by omega) hden]
    have h2 : -q.num / (q.den : Int) = ⌊-q⌋ := by
      rw [Rat.floor_def, Rat.neg_num, Rat.neg_den]
    rw [h2, Int.floor_neg, Int.neg_neg]
  · intro df df' cc hnd h name hmem col hcol
    obtain ⟨colI, henc, hout⟩ := encode_col_char hnd h hmem hcol
    have hlenI : colI.length = col.length := by
      rw [mapCellsM_length henc, List.length_map]
    refine ⟨colI.map astypeStrCell, hout, ?_⟩
    intro i h1 h2 q hfloat
    have hI : i < colI.length := by rw [hlenI]; exact h1
    have hfill : i < (col.map fillnaCell).length := by rw [List.length_map]; exact h1
    have hget := mapCellsM_get henc i hfill hI
    have hcell : (col.map fillnaCell).get ⟨i, hfill⟩ = Cell.float q := by
      simp only [List.get_eq_getElem, List.getElem_map]
      simp only [List.get_eq_getElem] at hfloat
      rw [hfloat]
      rfl
    rw [hcell] at hget
    have hIcell : colI.get ⟨i, hI⟩ = Cell.int (ratTruncTowardZero q) :=
      (Option.some.inj hget).symm
    simp only [List.get_eq_getElem, List.getElem_map]
    simp only [List.get_eq_getElem] at hIcell
    rw [hIcell]
    rfl

/-- Witness for C10: 3.7 in the pickup column of a concrete table, and
the floor characterization at 3.7 itself. -/
theorem claim_float_truncation_witness :
    ((0 : Rat) ≤ ratThreePointSeven ∧
      ratTruncTowardZero ratThreePointSeven = ⌊ratThreePointSeven⌋) ∧
    (∃ col', dfFloatSampleEncoded.getCol "PULocationID" = some col' ∧
      ∀ i (h1 : i < ([Cell.float ratThreePointSeven] : List Cell).length)
        (h2 : i < col'.length), ∀ q : Rat,
        ([Cell.float ratThreePointSeven] : List Cell).get ⟨i, h1⟩ = .float q →
        col'.get ⟨i, h2⟩ = .str (intToDecimalString (ratTruncTowardZero q))) :=
  ⟨⟨by decide, claim_float_truncation.1 ratThreePointSeven (by decide)⟩,
   claim_float_truncation.2.2 dfFloatSample dfFloatSampleEncoded none
     (by decide) (by decide) "PULocationID" (by decide)
     [Cell.float ratThreePointSeven] (by decide)⟩

/-- C8: the encoder is idempotent on its own output: re-encoding an
already encoded table (whose column names are duplicate-free) returns it
unchanged, because the integer-valued strings re-encode to themselves. -/
theorem claim_encoder_idempotent
    (df df' : DataFrame) (cc : Option (List String))
    (hnd : (cc.getD CATEGORICAL_COLS).Nodup) (hdf : df.NodupNames)
    (h : encode_categorical_cols df cc = some df') :
    encode_categorical_cols df' cc = some df' := by
  obtain ⟨df1, h1, h2⟩ := encode_destruct h
  have hnames1 := setColsMapped_names _ _ _ h1
  have hnames2 := setColsMapped_names _ _ _ h2
  have hdf' : df'.NodupNames := by
    unfold DataFrame.NodupNames at hdf ⊢
    unfold DataFrame.names at hnames1 hnames2 ⊢
    rw [hnames2, hnames1]
    exact hdf
  have hchar : ∀ name ∈ cc.getD CATEGORICAL_COLS,
      ∃ colI : List Cell, (∀ c ∈ colI, ∃ k, c = Cell.int k) ∧
        df'.getCol name = some (colI.map astypeStrCell) := by
    intro name hmem
    obtain ⟨col, colI, hcol, henc, _⟩ := setColsMapped_getCol_mem _ _ _ hnd h1 name hmem
    have hints : ∀ c ∈ colI, ∃ k, c = .int k := by
      intro c hc
      obtain ⟨d, _, hgd⟩ := mapCellsM_mem henc c hc
      exact astypeIntCell_is_int hgd
    obtain ⟨colI2, henc2, hout⟩ := encode_col_char hnd h hmem hcol
    obtain rfl : colI = colI2 := by
      rw [henc] at henc2
      exact Option.some.inj henc2
    exact ⟨colI, hints, hout⟩
  obtain ⟨d1, hA⟩ := @setColsMapped_isSome encodeColInt (cc.getD CATEGORICAL_COLS) df'
    hnd (fun name hmem => by
      obtain ⟨colI, hints, hgc⟩ := hchar name hmem
      refine ⟨colI.map astypeStrCell, hgc, ?_⟩
      rw [encodeColInt_astypeStr_ints colI hints]
      rfl)
  have hd1 : ∀ name ∈ cc.getD CATEGORICAL_COLS, ∃ colI : List Cell,
      (∀ c ∈ colI, ∃ k, c = Cell.int k) ∧ d1.getCol name = some colI ∧
      df'.getCol name = some (colI.map astypeStrCell) := by
    intro name hmem
    obtain ⟨colI, hints, hgc⟩ := hchar name hmem
    obtain ⟨c, c2, hc, hf, hg⟩ := setColsMapped_getCol_mem _ _ _ hnd hA name hmem
    obtain rfl : c = colI.map astypeStrCell := by
      rw [hgc] at hc
      exact (Option.some.inj hc).symm
    obtain rfl : colI = c2 := by
      rw [encodeColInt_astypeStr_ints colI hints] at hf
      exact Option.some.inj hf
    exact ⟨colI, hints, hg, hgc⟩
  obtain ⟨d2, hB⟩ := @setColsMapped_isSome (fun col => some (col.map astypeStrCell))
    (cc.getD CATEGORICAL_COLS) d1 hnd (fun name hmem => by
      obtain ⟨colI, _, hg, _⟩ := hd1 name hmem
      exact ⟨colI, hg, rfl⟩)
  have hd2names : d2.names = df'.names := by
    rw [setColsMapped_names _ _ _ hB, setColsMapped_names _ _ _ hA]
  have hd2look : ∀ name, d2.getCol name = df'.getCol name := by
    intro name
    by_cases hmem : name ∈ cc.getD CATEGORICAL_COLS
    · obtain ⟨colI, hints, hg1x, hgc⟩ := hd1 name hmem
      obtain ⟨c, c2, hc, hf, hg⟩ := setColsMapped_getCol_mem _ _ _ hnd hB name hmem
      obtain rfl : colI = c := by
        rw [hg1x] at hc
        exact Option.some.inj hc
      obtain rfl : List.map astypeStrCell colI = c2 := Option.some.inj hf
      rw [hg, hgc]
    · rw [setColsMapped_getCol_not_mem _ _ _ hB name hmem,
        setColsMapped_getCol_not_mem _ _ _ hA name hmem]
  have hEq : d2 = df' := DataFrame.eq_of_getCol hdf' hd2names hd2look
  exact encode_construct hA (hEq ▸ hB)

/-- Witness for C8: re-encoding the encoded sample table returns it
unchanged. -/
theorem claim_encoder_idempotent_witness :
    encode_categorical_cols dfNullSampleEncoded none = some dfNullSampleEncoded :=
  claim_encoder_idempotent dfNullSample dfNullSampleEncoded none
    (by decide) (by unfold DataFrame.NodupNames DataFrame.names; decide) (by decide)
